import Mathlib

/-!
A shallow embedding of the `goevent` dispatcher (src/dispatcher.go) and proofs
about its specified behaviour.

Modelling conventions:
* A Go channel (`chan int`) is identified by a `Nat` gate id; the dispatcher
  allocates fresh ids from a counter (`nextGate`), mirroring `make(chan int)`
  returning a fresh channel.
* `map[string]T` becomes an association list `List (String × T)` with
  first-match lookup (`alGet`, default value standing for Go's zero value on a
  missing key) and first-match update (`alSet`).
* The `go d.executeListener(...)` statement is modelled by appending a `Task`
  record to a ghost `tasks` list: the task is launched but not executed by
  `Dispatch` itself.
* The body of a launched goroutine (`executeListener`) is modelled twice, from
  the same source lines: `executeListener` gives the ordered trace of actions
  the goroutine performs (pause-flag read, pause-gate receive, handler body,
  pause-gate removal, or panic), used for ordering claims; `removePauseGate`
  gives its one effect on dispatcher state (`delete(d.pchans[name], p)`),
  used in the reachable-state relation.
* The handler payload `interface{}` is opaque to the dispatcher; it is
  modelled as `Nat`.  A stored handler value (`interface{}` in the
  `listeners` map) is `HandlerVal`: the two recognized dynamic types
  (`Listener` interface, `ListenerFunc`) carry an opaque body id,
  `nilInterface` is the nil `interface{}` obtained by passing a nil
  `Listener` argument to the registration method, and `invalid` stands for
  any other dynamic type.  Both of the latter fall through to the
  `default:` arm of `executeListener`'s type switch.
-/

namespace Goevent

/-- The `Event` record: immutable pair of opaque payload (`Data interface{}`, modelled as
`Nat`) and name, as in src/dispatcher.go lines 27-30. -/
structure Event where
  Data : Nat
  Name : String
deriving DecidableEq, Repr

/-- A value stored in `d.listeners` (Go type `interface{}`).  The two
recognized dynamic types — a `Listener` interface value and a `ListenerFunc` —
carry an opaque id for the caller-supplied body; `nilInterface` is the nil
`interface{}` that a nil `Listener` argument becomes when stored, and
`invalid` models any other dynamic type.  A type switch on a nil interface
matches no type case, so both `nilInterface` and `invalid` hit the
`default: panic` arm of `executeListener`. -/
inductive HandlerVal where
  | listener (body : Nat)
  | listenerFunc (body : Nat)
  | nilInterface
  | invalid (body : Nat)
deriving DecidableEq, Repr

/-- Returns `true` iff the stored value has one of the two recognized
dynamic types (and is not the nil interface). -/
def HandlerVal.isValid : HandlerVal → Bool
  | .listener _ => true
  | .listenerFunc _ => true
  | _ => false

/-- A goroutine launched by `go d.executeListener(name, l, e, p, q)`:
the arguments of that call. -/
structure Task where
  event : String
  handler : HandlerVal
  payload : Event
  pgate : Nat
  qgate : Nat
deriving DecidableEq, Repr

/-- First-match lookup in an association list, with default `d` standing for
the zero value Go returns on a missing map key. -/
def alGet {α : Type} : List (String × α) → String → α → α
  | [], _, d => d
  | (k, v) :: rest, key, d => if k = key then v else alGet rest key d

/-- First-match update (Go map assignment `m[k] = v`); appends when absent. -/
def alSet {α : Type} : List (String × α) → String → α → List (String × α)
  | [], key, v => [(key, v)]
  | (k, v') :: rest, key, v =>
      if k = key then (key, v) :: rest else (k, v') :: alSet rest key v

/-- Whether a key is present (Go `m[k] != nil` on a map-of-maps entry). -/
def alHas {α : Type} : List (String × α) → String → Bool
  | [], _ => false
  | (k, _) :: rest, key => if k = key then true else alHas rest key

/-- The dispatcher state, src/dispatcher.go lines 10-16, plus the gate-id
allocator `nextGate` and the ghost list `tasks` of launched goroutines.
`pchans` maps an event to its set of live pause gates (`map[chan int]bool`),
`qchans` maps an event to its sequence of completion gates, `nil`led entries
modelled as `none`. -/
structure Dispatcher where
  listeners : List (String × List HandlerVal)
  pchans : List (String × List Nat)
  qchans : List (String × List (Option Nat))
  paused : Bool
  nextGate : Nat
  tasks : List Task
deriving DecidableEq, Repr

/-- Constructor `NewDispatcher()`: empty maps, not paused. -/
def newDispatcher : Dispatcher :=
  { listeners := [], pchans := [], qchans := [], paused := false,
    nextGate := 0, tasks := [] }

/-- Method `func (d *Dispatcher) Listener(event string, l Listener)`: append
the `Listener`-typed argument to the event's handler sequence.  The argument
may be the nil `Listener` (`none`), which is stored as a nil `interface{}`;
a non-nil argument (`some body`) carries the opaque caller-supplied
implementation. -/
def Dispatcher.Listener (d : Dispatcher) (event : String) (l : Option Nat) :
    Dispatcher :=
  let stored := match l with
    | some body => HandlerVal.listener body
    | none => HandlerVal.nilInterface
  let hs := alGet d.listeners event [] ++ [stored]
  { d with listeners := alSet d.listeners event hs }

/-- Method `func (d *Dispatcher) ListenerFunc(event string, l ListenerFunc)`: append
a `ListenerFunc`-typed value to the event's handler sequence. -/
def Dispatcher.ListenerFunc (d : Dispatcher) (event : String) (body : Nat) :
    Dispatcher :=
  let hs := alGet d.listeners event [] ++ [HandlerVal.listenerFunc body]
  { d with listeners := alSet d.listeners event hs }

/-- The `if d.pchans[name] == nil { d.pchans[name] = make(...) }` step of
`Dispatch`. -/
def ensurePchans (d : Dispatcher) (name : String) : Dispatcher :=
  if alHas d.pchans name then d
  else { d with pchans := alSet d.pchans name [] }

/-- The `for _, l := range d.listeners[name]` loop body of `Dispatch`:
for each handler, make a fresh pause gate `p` and record it in
`d.pchans[name]`, make a fresh completion gate `q` and append it to
`d.qchans[name]`, and launch `go d.executeListener(name, l, e, p, q)`. -/
def dispatchLoop (name : String) (e : Event) :
    List HandlerVal → Dispatcher → Dispatcher
  | [], st => st
  | l :: rest, st =>
      dispatchLoop name e rest
        { st with
          pchans := alSet st.pchans name
            (alGet st.pchans name [] ++ [st.nextGate]),
          qchans := alSet st.qchans name
            (alGet st.qchans name [] ++ [some (st.nextGate + 1)]),
          nextGate := st.nextGate + 2,
          tasks := st.tasks ++
            [{ event := name, handler := l, payload := e,
               pgate := st.nextGate, qgate := st.nextGate + 1 }] }

/-- Method `func (d *Dispatcher) Dispatch(name string, e Event)`, lines 61-78. -/
def Dispatcher.Dispatch (d : Dispatcher) (name : String) (e : Event) :
    Dispatcher :=
  dispatchLoop name e (alGet d.listeners name []) (ensurePchans d name)

/-- Closed form of the goroutines launched by one `Dispatch` call: one task
per registered handler, in registration order, each with a fresh pause gate
and a fresh completion gate (ids taken consecutively from the allocator). -/
def launched (name : String) (e : Event) : Nat → List HandlerVal → List Task
  | _, [] => []
  | g, l :: rest =>
      { event := name, handler := l, payload := e, pgate := g,
        qgate := g + 1 } :: launched name e (g + 2) rest

/-- One observable action of a launched goroutine (`executeListener`). -/
inductive TaskAction where
  | readPaused (value : Bool)
  | recvPause (gate : Nat)
  | runBody
  | invalidPanic
  | removeGate (gate : Nat)
deriving DecidableEq, Repr

/-- Returns `true` on the action of reading the `paused` flag. -/
def TaskAction.isReadPaused : TaskAction → Bool
  | .readPaused _ => true
  | _ => false

/-- The ordered trace of actions performed by
`func (d *Dispatcher) executeListener(name, l, e, p, q)`, lines 80-95:
read `d.paused` once; if it read `true`, receive on the pause gate `p`;
then the type switch either runs the handler body (`Listener` or
`ListenerFunc`) and afterwards deletes `p` from `d.pchans[name]`, or panics
on any other dynamic type (so the delete is never reached). -/
def executeListener (paused : Bool) (l : HandlerVal) (p : Nat) :
    List TaskAction :=
  (TaskAction.readPaused paused ::
     (if paused then [TaskAction.recvPause p] else [])) ++
  (match l with
   | .listener _ => [TaskAction.runBody, TaskAction.removeGate p]
   | .listenerFunc _ => [TaskAction.runBody, TaskAction.removeGate p]
   | _ => [TaskAction.invalidPanic])

/-- Whether, in a task trace, the pause-gate removal for gate `p` occurs
before the handler body executes (strictly earlier than the first
`runBody` action). -/
def removedBeforeBody (tr : List TaskAction) (p : Nat) : Bool :=
  (tr.takeWhile (fun a => a != TaskAction.runBody)).any
    (fun a => a == TaskAction.removeGate p)

/-- The state effect of a launched goroutine finishing its body:
`delete(d.pchans[name], p)` (line 94).  A delete on a missing key is a
no-op, as in Go. -/
def Dispatcher.removePauseGate (d : Dispatcher) (name : String) (p : Nat) :
    Dispatcher :=
  if alHas d.pchans name then
    { d with pchans := alSet d.pchans name ((alGet d.pchans name []).erase p) }
  else d

/-- Method `func (d *Dispatcher) Pause()`: set the global flag. -/
def Dispatcher.Pause (d : Dispatcher) : Dispatcher :=
  { d with paused := true }

/-- All pause gates currently recorded, across every event (the nested
`for _, arr := range d.pchans { for c := range arr { ... } }` of `Resume`). -/
def allPauseGates (m : List (String × List Nat)) : List Nat :=
  (m.map Prod.snd).flatten

/-- One observable action of `Resume`. -/
inductive ResumeAction where
  | trySend (gate : Nat) (delivered : Bool)
  | clearPaused
deriving DecidableEq, Repr

/-- Method `func (d *Dispatcher) Resume()`, lines 103-118: no-op unless paused;
otherwise a non-blocking `select { case c <- 1: default: }` on every pause
gate of every event, then `d.paused = false`.  Whether a send is delivered
depends on whether a goroutine is currently blocked receiving on that gate;
that environment fact is the oracle `waiting`.  A send that finds no
receiver is dropped (the gates are unbuffered), which is exactly what the
`delivered` flag of the returned trace records. -/
def Dispatcher.Resume (d : Dispatcher) (waiting : Nat → Bool) :
    Dispatcher × List ResumeAction :=
  if d.paused then
    ({ d with paused := false },
     (allPauseGates d.pchans).map
        (fun g => ResumeAction.trySend g (waiting g)) ++
      [ResumeAction.clearPaused])
  else (d, [])

/-- The `for i, c := range d.qchans[event]` loop of `Wait`: returns the
updated gate sequence (every entry `nil`led) and, in order, the gates on
which a blocking receive `<-c` was performed (the entries that were not
already `nil`). -/
def waitLoop : List (Option Nat) → List (Option Nat) × List Nat
  | [] => ([], [])
  | none :: rest =>
      let r := waitLoop rest
      (none :: r.1, r.2)
  | some c :: rest =>
      let r := waitLoop rest
      (none :: r.1, c :: r.2)

/-- Method `func (d *Dispatcher) Wait(event string)`, lines 121-131: consume
every
non-`nil` completion gate recorded for the event in order, `nil`ling each
consumed entry in place.  Second component: the gates received on, in order.
Writing elements back is a no-op when the event has no entry (Go never
touches the map then). -/
def Dispatcher.Wait (d : Dispatcher) (event : String) :
    Dispatcher × List Nat :=
  (if alHas d.qchans event then
     { d with qchans :=
         alSet d.qchans event (waitLoop (alGet d.qchans event [])).1 }
   else d,
   (waitLoop (alGet d.qchans event [])).2)

/-- Method `func (d *Dispatcher) WaitAll()`: `Wait` on every event name of
`d.qchans` (iteration over the key set as it is at the call). -/
def Dispatcher.WaitAll (d : Dispatcher) : Dispatcher :=
  (d.qchans.map Prod.fst).foldl (fun st ev => (st.Wait ev).1) d

/-- Dispatcher states reachable through the public API plus the one internal
state effect of a launched goroutine (its pause-gate delete). -/
inductive Reachable : Dispatcher → Prop where
  | init : Reachable newDispatcher
  | listener {d} (ev : String) (l : Option Nat) :
      Reachable d → Reachable (d.Listener ev l)
  | listenerFunc {d} (ev : String) (body : Nat) :
      Reachable d → Reachable (d.ListenerFunc ev body)
  | dispatch {d} (name : String) (e : Event) :
      Reachable d → Reachable (d.Dispatch name e)
  | pause {d} : Reachable d → Reachable d.Pause
  | resume {d} (w : Nat → Bool) : Reachable d → Reachable (d.Resume w).1
  | wait {d} (ev : String) : Reachable d → Reachable (d.Wait ev).1
  | waitAll {d} : Reachable d → Reachable d.WaitAll
  | taskDone {d} (name : String) (p : Nat) :
      Reachable d → Reachable (d.removePauseGate name p)

/-! ### Association-list lemmas -/

theorem alGet_alSet_self {α : Type} (m : List (String × α)) (k : String)
    (v d : α) : alGet (alSet m k v) k d = v := by
  induction m with
  | nil => simp [alSet, alGet]
  | cons hd tl ih =>
      obtain ⟨k', v'⟩ := hd
      by_cases h : k' = k
      · simp [alSet, alGet, h]
      · simp [alSet, alGet, h, ih]

theorem alGet_alSet_ne {α : Type} (m : List (String × α)) (k k' : String)
    (v d : α) (h : k' ≠ k) : alGet (alSet m k v) k' d = alGet m k' d := by
  induction m with
  | nil =>
      simp only [alSet, alGet]
      rw [if_neg (fun hh => h hh.symm)]
  | cons hd tl ih =>
      obtain ⟨k0, v0⟩ := hd
      by_cases h0 : k0 = k
      · subst h0
        simp only [alSet, if_pos rfl, alGet]
        rw [if_neg (fun hh => h hh.symm), if_neg (fun hh => h hh.symm)]
      · simp only [alSet, if_neg h0, alGet]
        by_cases h1 : k0 = k'
        · rw [if_pos h1, if_pos h1]
        · rw [if_neg h1, if_neg h1, ih]

theorem alGet_of_alHas_eq_false {α : Type} (m : List (String × α))
    (k : String) (d : α) (h : alHas m k = false) : alGet m k d = d := by
  induction m with
  | nil => simp [alGet]
  | cons hd tl ih =>
      obtain ⟨k0, v0⟩ := hd
      by_cases h0 : k0 = k
      · simp [alHas, h0] at h
      · simp [alHas, h0] at h
        simp [alGet, h0, ih h]

/-! ### `ensurePchans` frame lemmas -/

theorem ensurePchans_listeners (d : Dispatcher) (name : String) :
    (ensurePchans d name).listeners = d.listeners := by
  unfold ensurePchans; split <;> rfl

theorem ensurePchans_qchans (d : Dispatcher) (name : String) :
    (ensurePchans d name).qchans = d.qchans := by
  unfold ensurePchans; split <;> rfl

theorem ensurePchans_paused (d : Dispatcher) (name : String) :
    (ensurePchans d name).paused = d.paused := by
  unfold ensurePchans; split <;> rfl

theorem ensurePchans_nextGate (d : Dispatcher) (name : String) :
    (ensurePchans d name).nextGate = d.nextGate := by
  unfold ensurePchans; split <;> rfl

theorem ensurePchans_tasks (d : Dispatcher) (name : String) :
    (ensurePchans d name).tasks = d.tasks := by
  unfold ensurePchans; split <;> rfl

theorem ensurePchans_alGet_pchans (d : Dispatcher) (name ev : String) :
    alGet (ensurePchans d name).pchans ev [] = alGet d.pchans ev [] := by
  unfold ensurePchans
  split
  · rfl
  · rename_i h
    by_cases hev : ev = name
    · subst hev
      rw [alGet_alSet_self, alGet_of_alHas_eq_false _ _ _ (by simpa using h)]
    · exact alGet_alSet_ne _ _ _ _ _ hev

/-! ### `dispatchLoop` lemmas -/

theorem dispatchLoop_listeners (name : String) (e : Event)
    (ls : List HandlerVal) : ∀ st : Dispatcher,
    (dispatchLoop name e ls st).listeners = st.listeners := by
  induction ls with
  | nil => intro st; rfl
  | cons l rest ih => intro st; exact ih _

theorem dispatchLoop_paused (name : String) (e : Event)
    (ls : List HandlerVal) : ∀ st : Dispatcher,
    (dispatchLoop name e ls st).paused = st.paused := by
  induction ls with
  | nil => intro st; rfl
  | cons l rest ih => intro st; exact ih _

theorem dispatchLoop_tasks (name : String) (e : Event)
    (ls : List HandlerVal) : ∀ st : Dispatcher,
    (dispatchLoop name e ls st).tasks =
      st.tasks ++ launched name e st.nextGate ls := by
  induction ls with
  | nil => intro st; simp [dispatchLoop, launched]
  | cons l rest ih =>
      intro st
      simp only [dispatchLoop]
      rw [ih]
      simp [launched]

theorem dispatchLoop_pchans_self (name : String) (e : Event)
    (ls : List HandlerVal) : ∀ st : Dispatcher,
    alGet (dispatchLoop name e ls st).pchans name [] =
      alGet st.pchans name [] ++ (launched name e st.nextGate ls).map
        Task.pgate := by
  induction ls with
  | nil => intro st; simp [dispatchLoop, launched]
  | cons l rest ih =>
      intro st
      simp only [dispatchLoop]
      rw [ih]
      simp only [alGet_alSet_self, launched, List.map_cons]
      simp

theorem dispatchLoop_pchans_ne (name : String) (e : Event)
    (ls : List HandlerVal) (ev : String) (hne : ev ≠ name) :
    ∀ st : Dispatcher,
    alGet (dispatchLoop name e ls st).pchans ev [] =
      alGet st.pchans ev [] := by
  induction ls with
  | nil => intro st; rfl
  | cons l rest ih =>
      intro st
      simp only [dispatchLoop]
      rw [ih]
      exact alGet_alSet_ne _ _ _ _ _ hne

theorem dispatchLoop_qchans_self (name : String) (e : Event)
    (ls : List HandlerVal) : ∀ st : Dispatcher,
    alGet (dispatchLoop name e ls st).qchans name [] =
      alGet st.qchans name [] ++ (launched name e st.nextGate ls).map
        (fun t => some t.qgate) := by
  induction ls with
  | nil => intro st; simp [dispatchLoop, launched]
  | cons l rest ih =>
      intro st
      simp only [dispatchLoop]
      rw [ih]
      simp only [alGet_alSet_self, launched, List.map_cons]
      simp

theorem dispatchLoop_qchans_ne (name : String) (e : Event)
    (ls : List HandlerVal) (ev : String) (hne : ev ≠ name) :
    ∀ st : Dispatcher,
    alGet (dispatchLoop name e ls st).qchans ev [] =
      alGet st.qchans ev [] := by
  induction ls with
  | nil => intro st; rfl
  | cons l rest ih =>
      intro st
      simp only [dispatchLoop]
      rw [ih]
      exact alGet_alSet_ne _ _ _ _ _ hne

/-! ### `launched` lemmas -/

theorem launched_length (name : String) (e : Event) :
    ∀ (g : Nat) (ls : List HandlerVal),
    (launched name e g ls).length = ls.length := by
  intro g ls
  induction ls generalizing g with
  | nil => rfl
  | cons l rest ih => simp [launched, ih]

theorem launched_map_handler (name : String) (e : Event) :
    ∀ (g : Nat) (ls : List HandlerVal),
    (launched name e g ls).map Task.handler = ls := by
  intro g ls
  induction ls generalizing g with
  | nil => rfl
  | cons l rest ih => simp [launched, ih]

theorem launched_filter_event (name : String) (e : Event) (ev : String) :
    ∀ (g : Nat) (ls : List HandlerVal),
    (launched name e g ls).filter (fun t => t.event == ev) =
      if name = ev then launched name e g ls else [] := by
  intro g ls
  induction ls generalizing g with
  | nil => simp [launched]
  | cons l rest ih =>
      by_cases h : name = ev
      · subst h
        simp only [launched, List.filter_cons, ih, if_pos rfl]
        simp
      · simp only [launched, List.filter_cons, ih, if_neg h]
        simp [h]

/-! ### Derived `Dispatch` lemmas -/

theorem Dispatch_listeners (d : Dispatcher) (name : String) (e : Event) :
    (d.Dispatch name e).listeners = d.listeners := by
  unfold Dispatcher.Dispatch
  rw [dispatchLoop_listeners, ensurePchans_listeners]

theorem Dispatch_paused (d : Dispatcher) (name : String) (e : Event) :
    (d.Dispatch name e).paused = d.paused := by
  unfold Dispatcher.Dispatch
  rw [dispatchLoop_paused, ensurePchans_paused]

theorem Dispatch_tasks (d : Dispatcher) (name : String) (e : Event) :
    (d.Dispatch name e).tasks =
      d.tasks ++ launched name e d.nextGate (alGet d.listeners name []) := by
  unfold Dispatcher.Dispatch
  rw [dispatchLoop_tasks, ensurePchans_tasks, ensurePchans_nextGate]

theorem Dispatch_pchans_self (d : Dispatcher) (name : String) (e : Event) :
    alGet (d.Dispatch name e).pchans name [] =
      alGet d.pchans name [] ++
        (launched name e d.nextGate (alGet d.listeners name [])).map
          Task.pgate := by
  unfold Dispatcher.Dispatch
  rw [dispatchLoop_pchans_self, ensurePchans_alGet_pchans,
    ensurePchans_nextGate]

theorem Dispatch_qchans_self (d : Dispatcher) (name : String) (e : Event) :
    alGet (d.Dispatch name e).qchans name [] =
      alGet d.qchans name [] ++
        (launched name e d.nextGate (alGet d.listeners name [])).map
          (fun t => some t.qgate) := by
  unfold Dispatcher.Dispatch
  rw [dispatchLoop_qchans_self, ensurePchans_qchans, ensurePchans_nextGate]

theorem Dispatch_qchans_ne (d : Dispatcher) (name : String) (e : Event)
    (ev : String) (hne : ev ≠ name) :
    alGet (d.Dispatch name e).qchans ev [] = alGet d.qchans ev [] := by
  unfold Dispatcher.Dispatch
  rw [dispatchLoop_qchans_ne _ _ _ _ hne, ensurePchans_qchans]

/-! ### `waitLoop` and `Wait` lemmas -/

theorem waitLoop_fst : ∀ l : List (Option Nat),
    (waitLoop l).1 = l.map (fun _ => none) := by
  intro l
  induction l with
  | nil => rfl
  | cons hd tl ih => cases hd <;> simp [waitLoop, ih]

theorem waitLoop_snd : ∀ l : List (Option Nat),
    (waitLoop l).2 = l.filterMap id := by
  intro l
  induction l with
  | nil => rfl
  | cons hd tl ih => cases hd <;> simp [waitLoop, ih]

theorem Wait_listeners (d : Dispatcher) (ev : String) :
    (d.Wait ev).1.listeners = d.listeners := by
  unfold Dispatcher.Wait; split <;> rfl

theorem Wait_pchans (d : Dispatcher) (ev : String) :
    (d.Wait ev).1.pchans = d.pchans := by
  unfold Dispatcher.Wait; split <;> rfl

theorem Wait_paused (d : Dispatcher) (ev : String) :
    (d.Wait ev).1.paused = d.paused := by
  unfold Dispatcher.Wait; split <;> rfl

theorem Wait_tasks (d : Dispatcher) (ev : String) :
    (d.Wait ev).1.tasks = d.tasks := by
  unfold Dispatcher.Wait; split <;> rfl

theorem Wait_qchans_self (d : Dispatcher) (ev : String) :
    alGet (d.Wait ev).1.qchans ev [] =
      (alGet d.qchans ev []).map (fun _ => none) := by
  by_cases h : alHas d.qchans ev = true
  · have h1 : (d.Wait ev).1.qchans =
        alSet d.qchans ev (waitLoop (alGet d.qchans ev [])).1 := by
      unfold Dispatcher.Wait
      rw [if_pos h]
    rw [h1, alGet_alSet_self, waitLoop_fst]
  · have hf : alHas d.qchans ev = false := by simpa using h
    have h1 : (d.Wait ev).1 = d := by
      unfold Dispatcher.Wait
      rw [if_neg h]
    rw [h1, alGet_of_alHas_eq_false _ _ _ hf]
    rfl

theorem Wait_qchans_ne (d : Dispatcher) (ev ev' : String) (h : ev' ≠ ev) :
    alGet (d.Wait ev).1.qchans ev' [] = alGet d.qchans ev' [] := by
  unfold Dispatcher.Wait
  split
  · exact alGet_alSet_ne _ _ _ _ _ h
  · rfl

theorem Wait_qchans_len (d : Dispatcher) (ev ev' : String) :
    (alGet (d.Wait ev).1.qchans ev' []).length =
      (alGet d.qchans ev' []).length := by
  by_cases h : ev' = ev
  · subst h
    rw [Wait_qchans_self, List.length_map]
  · rw [Wait_qchans_ne _ _ _ h]

theorem Wait_snd (d : Dispatcher) (ev : String) :
    (d.Wait ev).2 = (alGet d.qchans ev []).filterMap id :=
  waitLoop_snd _

/-! ### `Pause`, `Resume`, `removePauseGate`, registration frame lemmas -/

theorem Resume_fst_listeners (d : Dispatcher) (w : Nat → Bool) :
    (d.Resume w).1.listeners = d.listeners := by
  unfold Dispatcher.Resume; split <;> rfl

theorem Resume_fst_pchans (d : Dispatcher) (w : Nat → Bool) :
    (d.Resume w).1.pchans = d.pchans := by
  unfold Dispatcher.Resume; split <;> rfl

theorem Resume_fst_qchans (d : Dispatcher) (w : Nat → Bool) :
    (d.Resume w).1.qchans = d.qchans := by
  unfold Dispatcher.Resume; split <;> rfl

theorem Resume_fst_tasks (d : Dispatcher) (w : Nat → Bool) :
    (d.Resume w).1.tasks = d.tasks := by
  unfold Dispatcher.Resume; split <;> rfl

theorem removePauseGate_listeners (d : Dispatcher) (name : String)
    (p : Nat) : (d.removePauseGate name p).listeners = d.listeners := by
  unfold Dispatcher.removePauseGate; split <;> rfl

theorem removePauseGate_qchans (d : Dispatcher) (name : String) (p : Nat) :
    (d.removePauseGate name p).qchans = d.qchans := by
  unfold Dispatcher.removePauseGate; split <;> rfl

theorem removePauseGate_tasks (d : Dispatcher) (name : String) (p : Nat) :
    (d.removePauseGate name p).tasks = d.tasks := by
  unfold Dispatcher.removePauseGate; split <;> rfl

theorem Listener_qchans (d : Dispatcher) (ev : String) (l : Option Nat) :
    (d.Listener ev l).qchans = d.qchans := rfl

theorem Listener_tasks (d : Dispatcher) (ev : String) (l : Option Nat) :
    (d.Listener ev l).tasks = d.tasks := rfl

theorem ListenerFunc_qchans (d : Dispatcher) (ev : String) (body : Nat) :
    (d.ListenerFunc ev body).qchans = d.qchans := rfl

theorem ListenerFunc_tasks (d : Dispatcher) (ev : String) (body : Nat) :
    (d.ListenerFunc ev body).tasks = d.tasks := rfl

/-! ### `WaitAll` lemmas -/

theorem waitFold_listeners (evs : List String) : ∀ st : Dispatcher,
    (evs.foldl (fun s e0 => (s.Wait e0).1) st).listeners = st.listeners := by
  induction evs with
  | nil => intro st; rfl
  | cons hd tl ih =>
      intro st
      rw [List.foldl_cons, ih, Wait_listeners]

theorem waitFold_tasks (evs : List String) : ∀ st : Dispatcher,
    (evs.foldl (fun s e0 => (s.Wait e0).1) st).tasks = st.tasks := by
  induction evs with
  | nil => intro st; rfl
  | cons hd tl ih =>
      intro st
      rw [List.foldl_cons, ih, Wait_tasks]

theorem waitFold_qchans_len (evs : List String) : ∀ (st : Dispatcher)
    (ev : String),
    (alGet (evs.foldl (fun s e0 => (s.Wait e0).1) st).qchans ev []).length =
      (alGet st.qchans ev []).length := by
  induction evs with
  | nil => intro st ev; rfl
  | cons hd tl ih =>
      intro st ev
      rw [List.foldl_cons, ih, Wait_qchans_len]

theorem WaitAll_listeners (d : Dispatcher) :
    d.WaitAll.listeners = d.listeners :=
  waitFold_listeners _ _

theorem WaitAll_tasks (d : Dispatcher) : d.WaitAll.tasks = d.tasks :=
  waitFold_tasks _ _

theorem WaitAll_qchans_len (d : Dispatcher) (ev : String) :
    (alGet d.WaitAll.qchans ev []).length =
      (alGet d.qchans ev []).length :=
  waitFold_qchans_len _ _ _

/-! ### Claim theorems -/

/-- C1: For every event name and dispatcher state, `Dispatch` creates exactly
one pause-gate and one completion-gate per handler registered for the event
at the moment of the call, launches exactly that many concurrent handler
tasks in registration order (the appended `tasks` suffix, whose handlers in
order are exactly the registered handler list), and returns without blocking
on any handler's completion (the launched tasks are recorded unexecuted, and
registration and the paused flag are untouched). -/
theorem Dispatch_fanout (d : Dispatcher) (name : String) (e : Event) :
    (d.Dispatch name e).tasks =
      d.tasks ++ launched name e d.nextGate (alGet d.listeners name []) ∧
    (launched name e d.nextGate (alGet d.listeners name [])).length =
      (alGet d.listeners name []).length ∧
    (launched name e d.nextGate (alGet d.listeners name [])).map
        Task.handler = alGet d.listeners name [] ∧
    alGet (d.Dispatch name e).pchans name [] =
      alGet d.pchans name [] ++
        (launched name e d.nextGate (alGet d.listeners name [])).map
          Task.pgate ∧
    alGet (d.Dispatch name e).qchans name [] =
      alGet d.qchans name [] ++
        (launched name e d.nextGate (alGet d.listeners name [])).map
          (fun t => some t.qgate) ∧
    (d.Dispatch name e).listeners = d.listeners ∧
    (d.Dispatch name e).paused = d.paused :=
  ⟨Dispatch_tasks d name e, launched_length name e _ _,
   launched_map_handler name e _ _, Dispatch_pchans_self d name e,
   Dispatch_qchans_self d name e, Dispatch_listeners d name e,
   Dispatch_paused d name e⟩

/-- C2: `Wait` consumes each completion-gate recorded for the event in
append order (the received gates are exactly the non-`nil` entries, in
order), nulls every consumed entry, skips entries already nulled by a prior
`Wait`, and hence a second `Wait` on the same event performs no receive at
all. -/
theorem Wait_consumes_in_order (d : Dispatcher) (ev : String) :
    (d.Wait ev).2 = (alGet d.qchans ev []).filterMap id ∧
    alGet (d.Wait ev).1.qchans ev [] =
      (alGet d.qchans ev []).map (fun _ => none) ∧
    ((d.Wait ev).1.Wait ev).2 = [] := by
  refine ⟨Wait_snd d ev, Wait_qchans_self d ev, ?_⟩
  rw [Wait_snd, Wait_qchans_self]
  simp

/-- C3 counterexample: the claim says the pause-gate is removed from the
dispatcher's bookkeeping immediately after the task's pause check resolves,
i.e. before the handler body executes.  At the concrete input of an
unpaused task running a `ListenerFunc` handler with pause gate 5, the trace
contains no removal of gate 5 before the handler body runs, refuting the
claim. -/
theorem pauseGate_removed_before_body_cex :
    ¬ (removedBeforeBody
        (executeListener false (HandlerVal.listenerFunc 0) 5) 5 = true) := by
  decide

/-- C3 amended: for every valid handler task, the pause-gate is removed from
the dispatcher's bookkeeping as the task's final action, immediately after
the handler body returns (not before it executes). -/
theorem pauseGate_removed_after_body (b : Bool) (l : HandlerVal) (p : Nat)
    (h : l.isValid = true) :
    (executeListener b l p).getLast? = some (TaskAction.removeGate p) ∧
    (executeListener b l p).dropLast.getLast? = some TaskAction.runBody := by
  cases l with
  | listener k => cases b <;> exact ⟨rfl, rfl⟩
  | listenerFunc k => cases b <;> exact ⟨rfl, rfl⟩
  | nilInterface => simp [HandlerVal.isValid] at h
  | invalid k => simp [HandlerVal.isValid] at h

/-- Witness for `pauseGate_removed_after_body` at a concrete input. -/
theorem pauseGate_removed_after_body_witness :
    (executeListener false (HandlerVal.listener 0) 3).getLast? =
      some (TaskAction.removeGate 3) ∧
    (executeListener false (HandlerVal.listener 0) 3).dropLast.getLast? =
      some TaskAction.runBody :=
  pauseGate_removed_after_body false (HandlerVal.listener 0) 3 rfl

/-- C4: when the dispatcher is paused, `Resume` attempts a non-blocking
signal delivery on every pause-gate currently recorded across every event
(delivered exactly when a task is waiting on that gate, dropped otherwise —
nothing is queued and no dispatcher state besides the flag changes), and
clears the paused flag only after that loop completes (the flag-clearing is
the final action of the trace). -/
theorem Resume_signals_all_gates (d : Dispatcher) (w : Nat → Bool)
    (h : d.paused = true) :
    (d.Resume w).1.paused = false ∧
    (d.Resume w).1.listeners = d.listeners ∧
    (d.Resume w).1.pchans = d.pchans ∧
    (d.Resume w).1.qchans = d.qchans ∧
    (d.Resume w).1.tasks = d.tasks ∧
    (d.Resume w).2 =
      (allPauseGates d.pchans).map
          (fun g => ResumeAction.trySend g (w g)) ++
        [ResumeAction.clearPaused] ∧
    (∀ g ∈ allPauseGates d.pchans,
      ResumeAction.trySend g (w g) ∈ (d.Resume w).2) ∧
    (d.Resume w).2.getLast? = some ResumeAction.clearPaused := by
  have hres : d.Resume w =
      ({ d with paused := false },
       (allPauseGates d.pchans).map
          (fun g => ResumeAction.trySend g (w g)) ++
        [ResumeAction.clearPaused]) := by
    unfold Dispatcher.Resume
    rw [if_pos h]
  rw [hres]
  refine ⟨rfl, rfl, rfl, rfl, rfl, rfl, ?_, ?_⟩
  · intro g hg
    exact List.mem_append_left _ (List.mem_map_of_mem _ hg)
  · exact List.getLast?_concat _

/-- Witness for `Resume_signals_all_gates`: a paused dispatcher with one
dispatched handler (hence one recorded pause gate), resumed with no task
waiting. -/
theorem Resume_signals_all_gates_witness :
    ((((newDispatcher.ListenerFunc "a" 1).Dispatch "a"
        { Data := 0, Name := "a" }).Pause).Resume (fun _ => false)).1.paused =
      false ∧
    ((((newDispatcher.ListenerFunc "a" 1).Dispatch "a"
        { Data := 0, Name := "a" }).Pause).Resume
          (fun _ => false)).1.listeners =
      (((newDispatcher.ListenerFunc "a" 1).Dispatch "a"
        { Data := 0, Name := "a" }).Pause).listeners ∧
    ((((newDispatcher.ListenerFunc "a" 1).Dispatch "a"
        { Data := 0, Name := "a" }).Pause).Resume (fun _ => false)).1.pchans =
      (((newDispatcher.ListenerFunc "a" 1).Dispatch "a"
        { Data := 0, Name := "a" }).Pause).pchans ∧
    ((((newDispatcher.ListenerFunc "a" 1).Dispatch "a"
        { Data := 0, Name := "a" }).Pause).Resume (fun _ => false)).1.qchans =
      (((newDispatcher.ListenerFunc "a" 1).Dispatch "a"
        { Data := 0, Name := "a" }).Pause).qchans ∧
    ((((newDispatcher.ListenerFunc "a" 1).Dispatch "a"
        { Data := 0, Name := "a" }).Pause).Resume (fun _ => false)).1.tasks =
      (((newDispatcher.ListenerFunc "a" 1).Dispatch "a"
        { Data := 0, Name := "a" }).Pause).tasks ∧
    ((((newDispatcher.ListenerFunc "a" 1).Dispatch "a"
        { Data := 0, Name := "a" }).Pause).Resume (fun _ => false)).2 =
      (allPauseGates (((newDispatcher.ListenerFunc "a" 1).Dispatch "a"
        { Data := 0, Name := "a" }).Pause).pchans).map
          (fun g => ResumeAction.trySend g false) ++
        [ResumeAction.clearPaused] ∧
    (∀ g ∈ allPauseGates (((newDispatcher.ListenerFunc "a" 1).Dispatch "a"
        { Data := 0, Name := "a" }).Pause).pchans,
      ResumeAction.trySend g false ∈
        ((((newDispatcher.ListenerFunc "a" 1).Dispatch "a"
          { Data := 0, Name := "a" }).Pause).Resume (fun _ => false)).2) ∧
    ((((newDispatcher.ListenerFunc "a" 1).Dispatch "a"
        { Data := 0, Name := "a" }).Pause).Resume
          (fun _ => false)).2.getLast? =
      some ResumeAction.clearPaused :=
  Resume_signals_all_gates
    (((newDispatcher.ListenerFunc "a" 1).Dispatch "a"
      { Data := 0, Name := "a" }).Pause) (fun _ => false) rfl

/-- C5: every handler task reads the paused flag exactly once, as its very
first action, before the handler body executes; and `Pause` changes nothing
but the flag, so a `Pause` issued after a task has passed its single check
cannot affect that task. -/
theorem paused_flag_read_once (d : Dispatcher) (b : Bool) (l : HandlerVal)
    (p : Nat) :
    (executeListener b l p).head? = some (TaskAction.readPaused b) ∧
    (executeListener b l p).tail.countP TaskAction.isReadPaused = 0 ∧
    (executeListener b l p).countP TaskAction.isReadPaused = 1 ∧
    d.Pause.listeners = d.listeners ∧
    d.Pause.pchans = d.pchans ∧
    d.Pause.qchans = d.qchans ∧
    d.Pause.tasks = d.tasks ∧
    d.Pause.paused = true := by
  refine ⟨?_, ?_, ?_, rfl, rfl, rfl, rfl, rfl⟩ <;> cases b <;> cases l <;> rfl

/-- C6: a handler registered for an event after `Dispatch` has returned is
not included in that dispatch: registration leaves the launched-task list
unchanged, and the tasks a dispatch launches are determined solely by the
handlers registered at the time of the call. -/
theorem register_after_dispatch_excluded (d : Dispatcher) (name ev : String)
    (e : Event) (l : Option Nat) (body : Nat) :
    ((d.Dispatch name e).Listener ev l).tasks = (d.Dispatch name e).tasks ∧
    ((d.Dispatch name e).ListenerFunc ev body).tasks =
      (d.Dispatch name e).tasks ∧
    (d.Dispatch name e).tasks =
      d.tasks ++ launched name e d.nextGate (alGet d.listeners name []) :=
  ⟨rfl, rfl, Dispatch_tasks d name e⟩

/-- C8: `Resume` on a dispatcher that is not paused is a no-op: the state is
returned unchanged and no signal is attempted on any pause-gate. -/
theorem Resume_unpaused_noop (d : Dispatcher) (w : Nat → Bool)
    (h : d.paused = false) : d.Resume w = (d, []) := by
  unfold Dispatcher.Resume
  rw [if_neg (by simp [h])]

/-- Witness for `Resume_unpaused_noop` at a concrete unpaused dispatcher. -/
theorem Resume_unpaused_noop_witness :
    newDispatcher.Resume (fun _ => true) = (newDispatcher, []) :=
  Resume_unpaused_noop newDispatcher (fun _ => true) rfl

/-- In any state reachable through the public API, every stored handler
value is either one of the two recognized dynamic types or the nil
`interface{}` coming from a nil `Listener` argument — never any other
dynamic type. -/
theorem reachable_listeners_wellformed {d : Dispatcher} (h : Reachable d) :
    ∀ ev : String, ∀ l ∈ alGet d.listeners ev [],
      l.isValid = true ∨ l = HandlerVal.nilInterface := by
  induction h with
  | init => intro ev l hl; simp [newDispatcher, alGet] at hl
  | listener ev0 l0 hr ih =>
      intro ev l hl
      simp only [Dispatcher.Listener] at hl
      by_cases hev : ev = ev0
      · subst hev
        rw [alGet_alSet_self] at hl
        rcases List.mem_append.mp hl with h1 | h2
        · exact ih _ _ h1
        · rw [List.mem_singleton.mp h2]
          cases l0 with
          | some body => exact Or.inl rfl
          | none => exact Or.inr rfl
      · rw [alGet_alSet_ne _ _ _ _ _ hev] at hl
        exact ih _ _ hl
  | listenerFunc ev0 body hr ih =>
      intro ev l hl
      simp only [Dispatcher.ListenerFunc] at hl
      by_cases hev : ev = ev0
      · subst hev
        rw [alGet_alSet_self] at hl
        rcases List.mem_append.mp hl with h1 | h2
        · exact ih _ _ h1
        · rw [List.mem_singleton.mp h2]
          exact Or.inl rfl
      · rw [alGet_alSet_ne _ _ _ _ _ hev] at hl
        exact ih _ _ hl
  | dispatch name e hr ih =>
      intro ev l hl
      rw [Dispatch_listeners] at hl
      exact ih _ _ hl
  | pause hr ih => exact ih
  | resume w hr ih =>
      intro ev l hl
      rw [Resume_fst_listeners] at hl
      exact ih _ _ hl
  | wait ev0 hr ih =>
      intro ev l hl
      rw [Wait_listeners] at hl
      exact ih _ _ hl
  | waitAll hr ih =>
      intro ev l hl
      rw [WaitAll_listeners] at hl
      exact ih _ _ hl
  | taskDone name p hr ih =>
      intro ev l hl
      rw [removePauseGate_listeners] at hl
      exact ih _ _ hl

/-- C9 counterexample: the claim says every value stored through the public
registration methods has one of the two recognized dynamic types, making
the panic branch unreachable.  But `d.Listener("a", nil)` is a public-API
call whose nil `Listener` argument is stored as a nil `interface{}`; the
type switch matches no type case on it, so the task for that handler does
reach the fatal-invocation panic arm. -/
theorem nil_listener_reaches_panic_cex :
    Reachable (newDispatcher.Listener "a" none) ∧
    HandlerVal.nilInterface ∈
      alGet (newDispatcher.Listener "a" none).listeners "a" [] ∧
    HandlerVal.nilInterface.isValid = false ∧
    TaskAction.invalidPanic ∈
      executeListener false HandlerVal.nilInterface 0 :=
  ⟨Reachable.listener "a" none Reachable.init, by decide, rfl, by decide⟩

/-- C9 amended: every handler value stored through the public registration
methods is either one of the two recognized dynamic types or the nil
interface obtained by passing a nil `Listener` — static typing rules out
every other dynamic type but not nil.  The panic arm of `executeListener`'s
type switch is therefore reachable only through a nil registration: every
stored handler other than the nil interface never hits it. -/
theorem executeListener_panic_only_via_nil {d : Dispatcher}
    (h : Reachable d) :
    ∀ ev : String, ∀ l ∈ alGet d.listeners ev [],
      (l.isValid = true ∨ l = HandlerVal.nilInterface) ∧
      (l ≠ HandlerVal.nilInterface →
        ∀ (b : Bool) (p : Nat),
          TaskAction.invalidPanic ∉ executeListener b l p) := by
  intro ev l hl
  have hw := reachable_listeners_wellformed h ev l hl
  refine ⟨hw, ?_⟩
  intro hne b p
  cases l with
  | listener k => cases b <;> simp [executeListener]
  | listenerFunc k => cases b <;> simp [executeListener]
  | nilInterface => exact absurd rfl hne
  | invalid k =>
      rcases hw with h1 | h2
      · simp [HandlerVal.isValid] at h1
      · simp at h2

/-- Witness for `executeListener_panic_only_via_nil` at a concrete reachable
dispatcher holding one non-nil registered `Listener`. -/
theorem executeListener_panic_only_via_nil_witness :
    ((HandlerVal.listener 7).isValid = true ∨
      HandlerVal.listener 7 = HandlerVal.nilInterface) ∧
    (HandlerVal.listener 7 ≠ HandlerVal.nilInterface →
      ∀ (b : Bool) (p : Nat),
        TaskAction.invalidPanic ∉
          executeListener b (HandlerVal.listener 7) p) :=
  executeListener_panic_only_via_nil
    (Reachable.listener "a" (some 7) Reachable.init) "a"
    (HandlerVal.listener 7) (by decide)

/-- In any reachable state, the completion-gate sequence of every event has
exactly one entry per handler task ever launched for that event. -/
theorem reachable_qchans_length {d : Dispatcher} (h : Reachable d) :
    ∀ ev : String, (alGet d.qchans ev []).length =
      (d.tasks.filter (fun t => t.event == ev)).length := by
  induction h with
  | init => intro ev; rfl
  | listener ev0 body hr ih => exact ih
  | listenerFunc ev0 body hr ih => exact ih
  | dispatch name e hr ih =>
      intro ev
      by_cases hev : ev = name
      · subst hev
        rw [Dispatch_qchans_self, Dispatch_tasks, List.filter_append,
          launched_filter_event, if_pos rfl, List.length_append,
          List.length_append, List.length_map, ih ev]
      · rw [Dispatch_qchans_ne _ _ _ _ hev, Dispatch_tasks,
          List.filter_append, launched_filter_event,
          if_neg (fun hh => hev hh.symm), List.append_nil, ih ev]
  | pause hr ih => exact ih
  | resume w hr ih =>
      intro ev
      rw [Resume_fst_qchans, Resume_fst_tasks]
      exact ih ev
  | wait ev0 hr ih =>
      intro ev
      rw [Wait_qchans_len, Wait_tasks]
      exact ih ev
  | waitAll hr ih =>
      intro ev
      rw [Dispatcher.WaitAll, waitFold_qchans_len, waitFold_tasks]
      exact ih ev
  | taskDone name p hr ih =>
      intro ev
      rw [removePauseGate_qchans, removePauseGate_tasks]
      exact ih ev

/-- C10: `Wait` never shortens the completion-gate sequence of an event (it
nulls consumed entries in place, preserving the length); in every reachable
state that length equals the total number of handler tasks ever launched
for the event, and it grows monotonically with each dispatch. -/
theorem qchans_length_tracks_tasks {d : Dispatcher} (h : Reachable d) :
    (∀ ev : String, (alGet d.qchans ev []).length =
      (d.tasks.filter (fun t => t.event == ev)).length) ∧
    (∀ ev : String, (alGet ((d.Wait ev).1).qchans ev []).length =
      (alGet d.qchans ev []).length) ∧
    (∀ (name : String) (e : Event) (ev : String),
      (alGet d.qchans ev []).length ≤
        (alGet (d.Dispatch name e).qchans ev []).length) := by
  refine ⟨reachable_qchans_length h, fun ev => Wait_qchans_len d ev ev, ?_⟩
  intro name e ev
  by_cases hev : ev = name
  · subst hev
    rw [Dispatch_qchans_self]
    simp
  · rw [Dispatch_qchans_ne _ _ _ _ hev]

/-- Witness for `qchans_length_tracks_tasks` at the concrete reachable
dispatcher obtained by registering one handler and dispatching once. -/
theorem qchans_length_tracks_tasks_witness :
    (∀ ev : String,
      (alGet ((newDispatcher.ListenerFunc "a" 1).Dispatch "a"
          { Data := 0, Name := "a" }).qchans ev []).length =
        ((((newDispatcher.ListenerFunc "a" 1).Dispatch "a"
          { Data := 0, Name := "a" }).tasks.filter
            (fun t => t.event == ev)).length)) ∧
    (∀ ev : String,
      (alGet ((((newDispatcher.ListenerFunc "a" 1).Dispatch "a"
          { Data := 0, Name := "a" }).Wait ev).1).qchans ev []).length =
        (alGet ((newDispatcher.ListenerFunc "a" 1).Dispatch "a"
          { Data := 0, Name := "a" }).qchans ev []).length) ∧
    (∀ (name : String) (e : Event) (ev : String),
      (alGet ((newDispatcher.ListenerFunc "a" 1).Dispatch "a"
          { Data := 0, Name := "a" }).qchans ev []).length ≤
        (alGet (((newDispatcher.ListenerFunc "a" 1).Dispatch "a"
          { Data := 0, Name := "a" }).Dispatch name e).qchans ev []).length) :=
  qchans_length_tracks_tasks
    (Reachable.dispatch "a" { Data := 0, Name := "a" }
      (Reachable.listenerFunc "a" 1 Reachable.init))

end Goevent
